import Mathlib

/-!
Verification of the kaleidoscope vinyl generator core.

The embedding below translates the two JavaScript source files
(`sketch.js` and the unnamed variant) into Lean definitions:

* p5 runs with `angleMode(DEGREES)`, so every trigonometric call and
  every `rotate` receives its argument in degrees; the embedding
  multiplies by `π / 180` before calling `Real.sin` / `Real.cos`.
* the canvas transform is a 2×2 matrix; `rotate` post-multiplies the
  current transform by a rotation matrix and `scale(1,-1)` by a
  reflection matrix, exactly as the HTML canvas does.
* the kaleidoscope loop of `MouseDrawer.draw` / `SinusoidalDrawer.draw`
  is `kloop`, which threads the accumulating transform through the
  iterations and records every emitted line segment.
-/

noncomputable section

/-- A point of the canvas plane, centre-relative. -/
abbrev Vec : Type := ℝ × ℝ

/-- A 2×2 real matrix, the linear part of the canvas transform. -/
@[ext]
structure Mat2 where
  a : ℝ
  b : ℝ
  c : ℝ
  d : ℝ

/-- Matrix product, as the canvas composes transforms. -/
def Mat2.mul (M N : Mat2) : Mat2 :=
  ⟨M.a * N.a + M.b * N.c, M.a * N.b + M.b * N.d,
   M.c * N.a + M.d * N.c, M.c * N.b + M.d * N.d⟩

/-- Apply the linear transform to a point. -/
def Mat2.apply (M : Mat2) (v : Vec) : Vec :=
  (M.a * v.1 + M.b * v.2, M.c * v.1 + M.d * v.2)

/-- The identity transform (the state after `resetMatrix` / at frame start). -/
def Mat2.id : Mat2 := ⟨1, 0, 0, 1⟩

/-- The `rotate(phi)` transform in degree mode: the rotation matrix for `phi` degrees. -/
def rotDeg (phi : ℝ) : Mat2 :=
  ⟨Real.cos (phi * (Real.pi / 180)), -Real.sin (phi * (Real.pi / 180)),
   Real.sin (phi * (Real.pi / 180)), Real.cos (phi * (Real.pi / 180))⟩

/-- The `scale(1, -1)` transform: the vertical reflection used for the mirrored line. -/
def scaleY : Mat2 := ⟨1, 0, 0, -1⟩

/-- Negate the y-coordinate of a point (the reflection described by the spec). -/
def negY (v : Vec) : Vec := (v.1, -v.2)

/-- The kaleidoscope loop body: for each of the remaining `k` iterations,
post-multiply the accumulated transform `M` by `rotDeg theta`, emit the
segment `(p, q)` under the new transform, then emit it again with
`scale(1,-1)` additionally applied (inside `push`/`pop`), and recurse with
the rotated transform, as in the loop of `SinusoidalDrawer.draw` and
`MouseDrawer.draw`. -/
def kloop (theta : ℝ) (p q : Vec) : ℕ → Mat2 → List (Vec × Vec)
  | 0, _ => []
  | k + 1, M =>
    ((M.mul (rotDeg theta)).apply p, (M.mul (rotDeg theta)).apply q) ::
    (((M.mul (rotDeg theta)).mul scaleY).apply p,
     ((M.mul (rotDeg theta)).mul scaleY).apply q) ::
    kloop theta p q k (M.mul (rotDeg theta))

/-- One full run of the kaleidoscope loop (`for (let i = 0; i < symmetry; i++)`),
started from the identity transform that holds when the loop is reached. -/
def emit (symmetry : ℕ) (theta : ℝ) (p q : Vec) : List (Vec × Vec) :=
  kloop theta p q symmetry Mat2.id

/-- The independent rotated copy: the input segment with both endpoints
rotated by `phi` degrees about the origin. -/
def rotSeg (phi : ℝ) (p q : Vec) : Vec × Vec :=
  ((rotDeg phi).apply p, (rotDeg phi).apply q)

/-- The mirrored copy as the code produces it: rotation composed with
`scale(1,-1)`. -/
def mirSeg (phi : ℝ) (p q : Vec) : Vec × Vec :=
  (((rotDeg phi).mul scaleY).apply p, ((rotDeg phi).mul scaleY).apply q)

lemma kloop_zero (theta : ℝ) (p q : Vec) (M : Mat2) :
    kloop theta p q 0 M = [] := rfl

lemma kloop_succ (theta : ℝ) (p q : Vec) (k : ℕ) (M : Mat2) :
    kloop theta p q (k + 1) M =
      ((M.mul (rotDeg theta)).apply p, (M.mul (rotDeg theta)).apply q) ::
      (((M.mul (rotDeg theta)).mul scaleY).apply p,
       ((M.mul (rotDeg theta)).mul scaleY).apply q) ::
      kloop theta p q k (M.mul (rotDeg theta)) := rfl

lemma kloop_length (theta : ℝ) (p q : Vec) :
    ∀ (k : ℕ) (M : Mat2), (kloop theta p q k M).length = 2 * k := by
  intro k
  induction k with
  | zero => intro M; rw [kloop_zero]; rfl
  | succ k ih =>
    intro M
    rw [kloop_succ]
    simp only [List.length_cons, ih]
    omega

lemma Mat2.mul_assoc (M N P : Mat2) : (M.mul N).mul P = M.mul (N.mul P) := by
  ext <;> simp [Mat2.mul] <;> ring

lemma Mat2.id_mul (M : Mat2) : Mat2.id.mul M = M := by
  ext <;> simp [Mat2.mul, Mat2.id]

lemma Mat2.mul_apply (M N : Mat2) (v : Vec) :
    (M.mul N).apply v = M.apply (N.apply v) := by
  simp [Mat2.mul, Mat2.apply]
  constructor <;> ring

lemma rotDeg_mul (x y : ℝ) : (rotDeg x).mul (rotDeg y) = rotDeg (x + y) := by
  have h : (x + y) * (Real.pi / 180) = x * (Real.pi / 180) + y * (Real.pi / 180) := by
    ring
  ext <;>
    simp [rotDeg, Mat2.mul, h, Real.cos_add, Real.sin_add] <;> ring

lemma rotDeg_zero : rotDeg 0 = Mat2.id := by
  ext <;> simp [rotDeg, Mat2.id]

lemma Mat2.id_apply (v : Vec) : Mat2.id.apply v = v := by
  simp [Mat2.apply, Mat2.id]

lemma rotDeg_360 : rotDeg 360 = Mat2.id := by
  have h : (360 : ℝ) * (Real.pi / 180) = 2 * Real.pi := by ring
  ext <;> simp [rotDeg, Mat2.id, h, Real.cos_two_pi, Real.sin_two_pi]

lemma scaleY_apply (v : Vec) : scaleY.apply v = negY v := by
  simp [Mat2.apply, scaleY, negY]

/-- The mirrored copy equals the rotation applied to the y-negated input:
`scale(1,-1)` acts before the accumulated rotation. -/
lemma mirSeg_eq_rot_negY (phi : ℝ) (p q : Vec) :
    mirSeg phi p q = rotSeg phi (negY p) (negY q) := by
  simp [mirSeg, rotSeg, Mat2.mul_apply, scaleY_apply]

/-- Closed form of the accumulating loop: starting from transform `M`, the
`i`-th iteration emits the segment under `M * R((i+1)·theta)` and its mirror. -/
lemma kloop_eq (theta : ℝ) (p q : Vec) :
    ∀ (k : ℕ) (M : Mat2),
      kloop theta p q k M = (List.range k).flatMap (fun i : ℕ =>
        [((M.mul (rotDeg (((i : ℝ) + 1) * theta))).apply p,
          (M.mul (rotDeg (((i : ℝ) + 1) * theta))).apply q),
         (((M.mul (rotDeg (((i : ℝ) + 1) * theta))).mul scaleY).apply p,
          ((M.mul (rotDeg (((i : ℝ) + 1) * theta))).mul scaleY).apply q)]) := by
  intro k
  induction k with
  | zero => intro M; simp [kloop_zero]
  | succ k ih =>
    intro M
    rw [kloop_succ, ih, List.range_succ_eq_map, List.flatMap_cons, List.flatMap_map]
    have hstep : ∀ i : ℕ,
        (M.mul (rotDeg theta)).mul (rotDeg (((i : ℝ) + 1) * theta))
          = M.mul (rotDeg (((i.succ : ℝ) + 1) * theta)) := by
      intro i
      rw [Mat2.mul_assoc, rotDeg_mul]
      congr 2
      push_cast
      ring
    simp only [Nat.cast_zero, zero_add, one_mul, List.cons_append, List.nil_append]
    congr 1
    congr 1
    congr 1
    funext i
    rw [hstep i]

/-- The accumulating loop, started from the identity transform, coincides
with independently rotating the input by `(i+1) * theta` degrees per copy. -/
lemma emit_eq (n : ℕ) (theta : ℝ) (p q : Vec) :
    emit n theta p q = (List.range n).flatMap (fun i : ℕ =>
      [rotSeg (((i : ℝ) + 1) * theta) p q, mirSeg (((i : ℝ) + 1) * theta) p q]) := by
  unfold emit
  rw [kloop_eq]
  congr 1
  funext i
  simp [rotSeg, mirSeg, Mat2.id_mul]

lemma cos_90deg : Real.cos ((90 : ℝ) * (Real.pi / 180)) = 0 := by
  rw [show (90 : ℝ) * (Real.pi / 180) = Real.pi / 2 by ring]
  exact Real.cos_pi_div_two

lemma sin_90deg : Real.sin ((90 : ℝ) * (Real.pi / 180)) = 1 := by
  rw [show (90 : ℝ) * (Real.pi / 180) = Real.pi / 2 by ring]
  exact Real.sin_pi_div_two

/-- One step of the `360/n`-degree rotation applied to a whole segment. -/
def rotStep (theta : ℝ) (s : Vec × Vec) : Vec × Vec := rotSeg theta s.1 s.2

lemma rotStep_iterate (theta : ℝ) (s : Vec × Vec) :
    ∀ k : ℕ, (rotStep theta)^[k] s = rotSeg ((k : ℝ) * theta) s.1 s.2 := by
  intro k
  induction k with
  | zero =>
    simp [rotSeg, rotDeg_zero, Mat2.id_apply]
  | succ k ih =>
    have hcast : theta + (k : ℝ) * theta = ((k.succ : ℝ)) * theta := by
      push_cast
      ring
    rw [Function.iterate_succ_apply', ih]
    simp only [rotStep, rotSeg]
    rw [← Mat2.mul_apply, ← Mat2.mul_apply, rotDeg_mul, hcast]

lemma rot_copies_perm (n : ℕ) (theta : ℝ) (p q : Vec)
    (h360 : (n : ℝ) * theta = 360) :
    ((List.range n).map (fun i : ℕ => rotSeg (((i : ℝ) + 1) * theta) p q)).Perm
      ((List.range n).map (fun i : ℕ => rotSeg ((i : ℝ) * theta) p q)) := by
  set f : ℕ → Vec × Vec := fun i => rotSeg ((i : ℝ) * theta) p q with hf
  have hmap : (fun i : ℕ => rotSeg (((i : ℝ) + 1) * theta) p q) = f ∘ Nat.succ := by
    funext i
    simp only [hf, Function.comp_apply]
    congr 2
    push_cast
    ring
  have h1 : (List.range (n + 1)).map f = f 0 :: (List.range n).map (f ∘ Nat.succ) := by
    rw [List.range_succ_eq_map, List.map_cons, List.map_map]
  have h2 : (List.range (n + 1)).map f = (List.range n).map f ++ [f n] := by
    rw [List.range_succ, List.map_append, List.map_singleton]
  have hfn : f n = f 0 := by
    simp only [hf]
    rw [h360, Nat.cast_zero, zero_mul]
    unfold rotSeg
    rw [rotDeg_360, rotDeg_zero]
  have key : f 0 :: (List.range n).map (f ∘ Nat.succ) = (List.range n).map f ++ [f 0] := by
    rw [← h1, h2, hfn]
  rw [hmap]
  have hperm : ((List.range n).map f ++ [f 0]).Perm (f 0 :: (List.range n).map f) :=
    List.perm_append_singleton _ _
  have hcons : (f 0 :: (List.range n).map (f ∘ Nat.succ)).Perm
      (f 0 :: (List.range n).map f) := by
    rw [key]
    exact hperm
  exact hcons.cons_inv

/-- C5 counterexample: at symmetry 4 (step 90°) on the segment ((0,5),(10,5)),
the first mirrored output is not the y-negation of the first rotated output
(their x-coordinates differ), refuting the claimed copy-by-copy pairing. -/
theorem spec_c5_mirror_pairing_counterexample :
    (emit 4 90 ((0 : ℝ), (5 : ℝ)) ((10 : ℝ), (5 : ℝ))).get? 1 ≠
      ((emit 4 90 ((0 : ℝ), (5 : ℝ)) ((10 : ℝ), (5 : ℝ))).get? 0).map
        (fun s => (negY s.1, negY s.2)) := by
  have h0 : (emit 4 90 ((0 : ℝ), (5 : ℝ)) ((10 : ℝ), (5 : ℝ))).get? 0
      = some ((Mat2.id.mul (rotDeg 90)).apply (0, 5),
              (Mat2.id.mul (rotDeg 90)).apply (10, 5)) := rfl
  have h1 : (emit 4 90 ((0 : ℝ), (5 : ℝ)) ((10 : ℝ), (5 : ℝ))).get? 1
      = some (((Mat2.id.mul (rotDeg 90)).mul scaleY).apply (0, 5),
              ((Mat2.id.mul (rotDeg 90)).mul scaleY).apply (10, 5)) := rfl
  rw [h0, h1]
  simp only [Option.map_some', Mat2.mul, Mat2.apply, Mat2.id, rotDeg, scaleY, negY,
    cos_90deg, sin_90deg, Option.some.injEq, Prod.mk.injEq]
  norm_num

/-- C5 (amended): the i-th mirrored output segment is the i-th rotation applied
to the y-negated input segment, i.e. the vertical reflection acts on the input
before the accumulated rotation, not on the already-rotated copy. -/
theorem spec_c5_mirror_of_reflected (n : ℕ) (theta : ℝ) (p q : Vec) :
    emit n theta p q = (List.range n).flatMap (fun i : ℕ =>
      [rotSeg (((i : ℝ) + 1) * theta) p q,
       rotSeg (((i : ℝ) + 1) * theta) (negY p) (negY q)]) := by
  rw [emit_eq]
  simp only [mirSeg_eq_rot_negY]

/-- C6: the accumulating rotation of the loop equals independent per-copy
rotation; the produced rotation angles `(i+1)*step` are a permutation of
`i*step` for `i < n` (since rotating by 360° is the identity); and `n`
applications of the `360/n` step return a segment to its original
coordinates. -/
theorem spec_c6_rotation_equivalence (n : ℕ) (theta : ℝ) (p q : Vec)
    (hn : 2 ≤ n) (htheta : theta = 360 / (n : ℝ)) :
    (emit n theta p q = (List.range n).flatMap (fun i : ℕ =>
        [rotSeg (((i : ℝ) + 1) * theta) p q, mirSeg (((i : ℝ) + 1) * theta) p q]))
    ∧ ((List.range n).map (fun i : ℕ => rotSeg (((i : ℝ) + 1) * theta) p q)).Perm
        ((List.range n).map (fun i : ℕ => rotSeg ((i : ℝ) * theta) p q))
    ∧ (rotStep theta)^[n] (p, q) = (p, q) := by
  have hpos : (0 : ℝ) < (n : ℝ) := by
    exact_mod_cast Nat.lt_of_lt_of_le (by norm_num) hn
  have h360 : (n : ℝ) * theta = 360 := by
    rw [htheta]
    field_simp
  refine ⟨emit_eq n theta p q, rot_copies_perm n theta p q h360, ?_⟩
  rw [rotStep_iterate]
  simp [rotSeg, h360, rotDeg_360, Mat2.id_apply]

/-- Witness for C6 at symmetry order 4, step 90°, segment ((0,5),(10,5)). -/
theorem spec_c6_rotation_equivalence_witness :
    (emit 4 90 ((0 : ℝ), (5 : ℝ)) ((10 : ℝ), (5 : ℝ)) = (List.range 4).flatMap (fun i : ℕ =>
        [rotSeg (((i : ℝ) + 1) * 90) ((0 : ℝ), (5 : ℝ)) ((10 : ℝ), (5 : ℝ)),
         mirSeg (((i : ℝ) + 1) * 90) ((0 : ℝ), (5 : ℝ)) ((10 : ℝ), (5 : ℝ))]))
    ∧ ((List.range 4).map (fun i : ℕ =>
          rotSeg (((i : ℝ) + 1) * 90) ((0 : ℝ), (5 : ℝ)) ((10 : ℝ), (5 : ℝ)))).Perm
        ((List.range 4).map (fun i : ℕ =>
          rotSeg ((i : ℝ) * 90) ((0 : ℝ), (5 : ℝ)) ((10 : ℝ), (5 : ℝ))))
    ∧ (rotStep 90)^[4] (((0 : ℝ), (5 : ℝ)), ((10 : ℝ), (5 : ℝ)))
        = (((0 : ℝ), (5 : ℝ)), ((10 : ℝ), (5 : ℝ))) :=
  spec_c6_rotation_equivalence 4 90 _ _ (by norm_num) (by norm_num)

/-- C1: for every symmetry order `n ≥ 2` and every input segment, one run of
the kaleidoscope loop emits exactly `2 * n` line segments. -/
theorem spec_c1_symmetric_emit_count (n : ℕ) (theta : ℝ) (p q : Vec)
    (hn : 2 ≤ n) : (emit n theta p q).length = 2 * n := by
  unfold emit
  exact kloop_length theta p q n Mat2.id

/-- Witness for C1 at symmetry order 4 and the segment ((0,5),(10,5)). -/
theorem spec_c1_symmetric_emit_count_witness :
    2 ≤ 4 ∧ (emit 4 90 ((0 : ℝ), (5 : ℝ)) ((10 : ℝ), (5 : ℝ))).length = 2 * 4 :=
  ⟨by norm_num, spec_c1_symmetric_emit_count 4 90 _ _ (by norm_num)⟩

/-! ## The sinusoidal trajectory generator -/

/-- Which trig function a wave uses (the mode string, sin or cos). -/
inductive WaveMode
  | sin
  | cos

/-- One sinusoidal component (`SinusoidalWave`): `radius` is the amplitude,
`freq` the frequency, `phase` the phase offset in degrees (p5 degree mode),
`phaseInc` the per-step drift. -/
structure SinusoidalWave where
  radius : ℝ
  freq : ℝ
  phase : ℝ
  phaseInc : ℝ
  mode : WaveMode

/-- The wave value `value(t)`, i.e. `sin(t * freq + phase) * radius` (or the cosine variant).
Because the sketch calls `angleMode(DEGREES)`, the p5 trig functions
interpret the argument in degrees, hence the `π / 180` factor. -/
def SinusoidalWave.value (w : SinusoidalWave) (t : ℝ) : ℝ :=
  match w.mode with
  | WaveMode.sin => Real.sin ((t * w.freq + w.phase) * (Real.pi / 180)) * w.radius
  | WaveMode.cos => Real.cos ((t * w.freq + w.phase) * (Real.pi / 180)) * w.radius

/-- The drift step `incrementPhase()`, i.e. `phase += phaseInc`. -/
def SinusoidalWave.incrementPhase (w : SinusoidalWave) : SinusoidalWave :=
  { w with phase := w.phase + w.phaseInc }

/-- Sum of the wave contributions of one axis at time `t`. -/
def sumWaves (ws : List SinusoidalWave) (t : ℝ) : ℝ :=
  (ws.map (fun w => w.value t)).sum

/-- The mutable state of a `SinusoidalDrawer`. -/
structure DrawerState where
  pos : Vec
  prevPos : Vec
  t : ℝ
  tIncrement : ℝ
  xWaves : List SinusoidalWave
  yWaves : List SinusoidalWave
  colorInterpolation : ℝ
  colorInterpolationSpeed : ℝ

/-- The step `SinusoidalDrawer.update()`: a no-op when `autoPaused` is set; otherwise
save `pos` into `prevPos`, recompute `pos` as the oscillator sums at `t`,
advance `t` by `tIncrement`, and drift every wave phase. -/
def SinusoidalDrawer.update (autoPaused : Bool) (s : DrawerState) : DrawerState :=
  if autoPaused then s
  else
    { s with
      prevPos := s.pos
      pos := (sumWaves s.xWaves s.t, sumWaves s.yWaves s.t)
      t := s.t + s.tIncrement
      xWaves := s.xWaves.map SinusoidalWave.incrementPhase
      yWaves := s.yWaves.map SinusoidalWave.incrementPhase }

/-- The part of `SinusoidalDrawer.draw()` before the kaleidoscope loop: run `update`,
then on the very first frame (`t <= tIncrement`) only set `prevPos := pos`
and signal "no draw" (`none`); otherwise advance the colour cursor and pass
the segment from `pos` to `prevPos` on to the loop (`some`). -/
def SinusoidalDrawer.drawSignal (autoPaused : Bool) (s : DrawerState) :
    DrawerState × Option (Vec × Vec) :=
  let s1 := SinusoidalDrawer.update autoPaused s
  if s1.t ≤ s1.tIncrement then
    ({ s1 with prevPos := s1.pos }, none)
  else
    ({ s1 with colorInterpolation :=
        s1.colorInterpolation + s1.colorInterpolationSpeed },
     some (s1.pos, s1.prevPos))

/-- The state transition of one `draw()` call (discarding the emitted
segments). -/
def stepState (s : DrawerState) : DrawerState :=
  (SinusoidalDrawer.drawSignal false s).1

/-- A freshly constructed generator: both positions at the origin, `t = 0`. -/
def freshDrawer (tInc : ℝ) (xs ys : List SinusoidalWave) (cI cIS : ℝ) :
    DrawerState :=
  { pos := (0, 0), prevPos := (0, 0), t := 0, tIncrement := tInc,
    xWaves := xs, yWaves := ys,
    colorInterpolation := cI, colorInterpolationSpeed := cIS }

/-- The `SinusoidalDrawer` constructor with no explicit wave options: one
x-wave `{radius: drawRadius * 1.0, freq: 10.0, phaseInc: 0.1, mode: "sin"}`
(its phase drawn as `random(0, TWO_PI)`, passed in here as `randPhase`),
and an empty y-wave list. -/
def SinusoidalDrawer.construct (drawRadius randPhase : ℝ) : DrawerState :=
  { pos := (0, 0), prevPos := (0, 0), t := 0, tIncrement := 10,
    xWaves := [⟨drawRadius * 1.0, 10.0, randPhase, 0.1, WaveMode.sin⟩],
    yWaves := [],
    colorInterpolation := 0, colorInterpolationSpeed := 0.01 }

lemma update_paused (s : DrawerState) : SinusoidalDrawer.update true s = s := by
  simp [SinusoidalDrawer.update]

/-- C4: calling the trajectory step (`SinusoidalDrawer.update`) while the
global pause flag is set leaves the whole generator state unchanged — in
particular the time accumulator, both positions, and every wave phase. -/
theorem spec_c4_paused_update_noop (s : DrawerState) :
    SinusoidalDrawer.update true s = s :=
  update_paused s

/-! ## The abstract ProceduralDrawer base class -/

/-- A thrown JavaScript `Error`, carrying its message. -/
structure JsError where
  message : String

/-- The base method `ProceduralDrawer.update()`: unconditionally throws. -/
def ProceduralDrawer.update : Except JsError Unit :=
  Except.error ⟨"Method update() must be implemented by subclass"⟩

/-- The base method `ProceduralDrawer.draw()`: unconditionally throws. -/
def ProceduralDrawer.draw : Except JsError Unit :=
  Except.error ⟨"Method draw() must be implemented by subclass"⟩

/-- C9: invoking `update()` or `draw()` on the abstract `ProceduralDrawer`
base always fails by throwing an error and never returns normally. -/
theorem spec_c9_abstract_methods_throw :
    ProceduralDrawer.update = Except.error ⟨"Method update() must be implemented by subclass"⟩
    ∧ ProceduralDrawer.draw = Except.error ⟨"Method draw() must be implemented by subclass"⟩
    ∧ (∀ u : Unit, ProceduralDrawer.update ≠ Except.ok u)
    ∧ (∀ u : Unit, ProceduralDrawer.draw ≠ Except.ok u) := by
  refine ⟨rfl, rfl, ?_, ?_⟩ <;> intro u h <;> exact Except.noConfusion h

lemma stepState_t (s : DrawerState) :
    (stepState s).t = s.t + s.tIncrement
    ∧ (stepState s).tIncrement = s.tIncrement := by
  unfold stepState SinusoidalDrawer.drawSignal
  dsimp only
  constructor <;> (split <;> simp [SinusoidalDrawer.update])

lemma stepState_iterate_t (s : DrawerState) :
    ∀ k : ℕ, (stepState^[k] s).t = s.t + (k : ℝ) * s.tIncrement
      ∧ (stepState^[k] s).tIncrement = s.tIncrement := by
  intro k
  induction k with
  | zero => simp
  | succ k ih =>
    rw [Function.iterate_succ_apply']
    obtain ⟨ht, hinc⟩ := stepState_t (stepState^[k] s)
    refine ⟨?_, ?_⟩
    · rw [ht, ih.1, ih.2]
      push_cast
      ring
    · rw [hinc, ih.2]

/-- C3: a freshly constructed generator with positive `tIncrement` signals
"no draw" on the first `draw()` call and only on that call; the second call
signals a drawable segment whose previous endpoint is the first call's
current position. -/
theorem spec_c3_first_step_no_draw (tInc cI cIS : ℝ) (xs ys : List SinusoidalWave)
    (h : 0 < tInc) :
    (SinusoidalDrawer.drawSignal false (freshDrawer tInc xs ys cI cIS)).2 = none
    ∧ (∃ c, (SinusoidalDrawer.drawSignal false
          ((SinusoidalDrawer.drawSignal false (freshDrawer tInc xs ys cI cIS)).1)).2
        = some (c, ((SinusoidalDrawer.drawSignal false
              (freshDrawer tInc xs ys cI cIS)).1).pos))
    ∧ ∀ k : ℕ, 1 ≤ k →
        (SinusoidalDrawer.drawSignal false
          (stepState^[k] (freshDrawer tInc xs ys cI cIS))).2 ≠ none := by
  have hnd : ¬ (tInc + tInc ≤ tInc) := by linarith
  refine ⟨?_, ?_, ?_⟩
  · simp [SinusoidalDrawer.drawSignal, SinusoidalDrawer.update, freshDrawer]
  · refine ⟨(sumWaves (xs.map SinusoidalWave.incrementPhase) tInc,
        sumWaves (ys.map SinusoidalWave.incrementPhase) tInc), ?_⟩
    simp [SinusoidalDrawer.drawSignal, SinusoidalDrawer.update, freshDrawer, hnd]
  · intro k hk
    obtain ⟨ht, hinc⟩ := stepState_iterate_t (freshDrawer tInc xs ys cI cIS) k
    have hfresh_t : (freshDrawer tInc xs ys cI cIS).t = 0 := rfl
    have hfresh_inc : (freshDrawer tInc xs ys cI cIS).tIncrement = tInc := rfl
    rw [hfresh_t, hfresh_inc] at ht
    rw [hfresh_inc] at hinc
    have hk1 : (1 : ℝ) ≤ (k : ℝ) := by exact_mod_cast hk
    have hbig : ¬ ((stepState^[k] (freshDrawer tInc xs ys cI cIS)).t
        + (stepState^[k] (freshDrawer tInc xs ys cI cIS)).tIncrement
        ≤ (stepState^[k] (freshDrawer tInc xs ys cI cIS)).tIncrement) := by
      rw [ht, hinc]
      have : tInc ≤ (k : ℝ) * tInc := le_mul_of_one_le_left h.le hk1
      push_neg
      linarith
    simp only [SinusoidalDrawer.drawSignal, SinusoidalDrawer.update]
    simp only [Bool.false_eq_true, if_false]
    rw [if_neg]
    · simp
    · simpa using hbig

/-- Witness for C3: empty wave lists, `tIncrement = 1`. -/
theorem spec_c3_first_step_no_draw_witness :
    (0 : ℝ) < 1
    ∧ ((SinusoidalDrawer.drawSignal false (freshDrawer 1 [] [] 0 0)).2 = none
      ∧ (∃ c, (SinusoidalDrawer.drawSignal false
            ((SinusoidalDrawer.drawSignal false (freshDrawer 1 [] [] 0 0)).1)).2
          = some (c, ((SinusoidalDrawer.drawSignal false (freshDrawer 1 [] [] 0 0)).1).pos))
      ∧ ∀ k : ℕ, 1 ≤ k →
          (SinusoidalDrawer.drawSignal false (stepState^[k] (freshDrawer 1 [] [] 0 0))).2 ≠ none) :=
  ⟨by norm_num, spec_c3_first_step_no_draw 1 0 0 [] [] (by norm_num)⟩

/-- A sample paused drawer state, past its first step, with the colour
cursor at 0 and a nonnegative colour speed as in every reachable state. -/
def pausedSample : DrawerState :=
  { pos := (1, 2), prevPos := (3, 4), t := 5, tIncrement := 1,
    xWaves := [], yWaves := [],
    colorInterpolation := 0, colorInterpolationSpeed := 1 / 4 }

/-- C7: with no explicit oscillator options, the constructor builds exactly
one x-axis wave and no y-axis wave, so the y-component of the trajectory is
identically 0 at every step. -/
theorem spec_c7_default_oscillators (drawRadius randPhase : ℝ) :
    (SinusoidalDrawer.construct drawRadius randPhase).xWaves.length = 1
    ∧ (SinusoidalDrawer.construct drawRadius randPhase).yWaves.length = 0
    ∧ (∀ t : ℝ, sumWaves (SinusoidalDrawer.construct drawRadius randPhase).yWaves t = 0)
    ∧ (∀ k : ℕ,
        (stepState^[k] (SinusoidalDrawer.construct drawRadius randPhase)).pos.2 = 0) := by
  refine ⟨rfl, rfl, fun t => rfl, ?_⟩
  have hstep : ∀ s : DrawerState, s.yWaves = [] →
      (stepState s).yWaves = [] ∧ (stepState s).pos.2 = 0 := by
    intro s hy
    unfold stepState SinusoidalDrawer.drawSignal
    dsimp only
    constructor <;> (split <;> simp [SinusoidalDrawer.update, hy, sumWaves])
  have key : ∀ k : ℕ,
      (stepState^[k] (SinusoidalDrawer.construct drawRadius randPhase)).yWaves = []
      ∧ (stepState^[k] (SinusoidalDrawer.construct drawRadius randPhase)).pos.2 = 0 := by
    intro k
    induction k with
    | zero => exact ⟨rfl, rfl⟩
    | succ k ih =>
      rw [Function.iterate_succ_apply']
      exact hstep _ ih.1
  exact fun k => (key k).2

/-- The end-to-end scenario generator: one x-wave with amplitude 100,
frequency 1, phase 0, drift 0; no y-waves; `tIncrement = 1`. -/
def scenarioDrawer : DrawerState :=
  freshDrawer 1 [⟨100, 1, 0, 0, WaveMode.sin⟩] [] 0 0

/-- C2 counterexample: the wave value is computed with p5 trig in degree
mode, so for the scenario wave at `t = 1` it is `100 * sin(1°)`, which is
not `100 * sin(1 rad)` as the claim asserts. -/
theorem spec_c2_wave_value_radians_counterexample :
    SinusoidalWave.value ⟨100, 1, 0, 0, WaveMode.sin⟩ 1 ≠ 100 * Real.sin 1 := by
  have h1 : Real.pi / 180 ∈ Set.Icc (-(Real.pi / 2)) (Real.pi / 2) := by
    constructor <;> linarith [Real.pi_pos]
  have h2 : (1 : ℝ) ∈ Set.Icc (-(Real.pi / 2)) (Real.pi / 2) := by
    constructor
    · linarith [Real.pi_pos]
    · linarith [Real.pi_gt_three]
  have h3 : Real.pi / 180 < 1 := by linarith [Real.pi_lt_d2]
  have hlt : Real.sin (Real.pi / 180) < Real.sin 1 :=
    Real.strictMonoOn_sin h1 h2 h3
  intro h
  simp only [SinusoidalWave.value] at h
  rw [show ((1 : ℝ) * 1 + 0) = 1 by norm_num] at h
  rw [show (1 : ℝ) * (Real.pi / 180) = Real.pi / 180 by ring] at h
  linarith

/-- C2 (amended): `value(t)` is the pure function
`amplitude * sin((t * freq + phase) degrees)` — the argument is interpreted
in degrees because the sketch sets `angleMode(DEGREES)` — and in the
end-to-end scenario the first step is a no-draw at position `(0, 0)` while
the second step signals the segment from `(100 * sin(1°), 0)` back to
`(0, 0)`. -/
theorem spec_c2_wave_value_degrees :
    (∀ r f ph d t : ℝ,
        SinusoidalWave.value ⟨r, f, ph, d, WaveMode.sin⟩ t
          = r * Real.sin ((t * f + ph) * (Real.pi / 180)))
    ∧ (SinusoidalDrawer.drawSignal false scenarioDrawer).2 = none
    ∧ (SinusoidalDrawer.drawSignal false scenarioDrawer).1.pos = (0, 0)
    ∧ (SinusoidalDrawer.drawSignal false
          ((SinusoidalDrawer.drawSignal false scenarioDrawer).1)).2
        = some ((Real.sin (Real.pi / 180) * 100, 0), (0, 0)) := by
  refine ⟨?_, ?_, ?_, ?_⟩
  · intro r f ph d t
    simp only [SinusoidalWave.value]
    ring
  · simp [SinusoidalDrawer.drawSignal, SinusoidalDrawer.update, scenarioDrawer,
      freshDrawer]
  · simp [SinusoidalDrawer.drawSignal, SinusoidalDrawer.update, scenarioDrawer,
      freshDrawer, sumWaves, SinusoidalWave.value]
  · simp [SinusoidalDrawer.drawSignal, SinusoidalDrawer.update, scenarioDrawer,
      freshDrawer, sumWaves, SinusoidalWave.value, SinusoidalWave.incrementPhase]
    norm_num

/-! ## The colour computation of `draw()` -/

/-- JavaScript truncation toward zero, as used by the `%` operator. -/
def jsTrunc (x : ℝ) : ℤ := if 0 ≤ x then ⌊x⌋ else -⌊-x⌋

/-- The JavaScript `%` operator on numbers: remainder with the sign of the
dividend, `a - b * trunc(a / b)`. -/
def jsMod (a b : ℝ) : ℝ := a - b * (jsTrunc (a / b) : ℝ)

/-- The JavaScript `%` operator restricted to integer values. -/
def jsIntMod (a b : ℤ) : ℤ := if 0 ≤ a then a % b else -((-a) % b)

/-- A p5 colour, as a triple of channel values. -/
abbrev Color : Type := ℝ × ℝ × ℝ

/-- The blend `lerpColor(c1, c2, amt)`: channelwise linear interpolation with the
blend amount constrained to `[0, 1]`. -/
def lerpColor (c1 c2 : Color) (amt : ℝ) : Color :=
  (c1.1 + (c2.1 - c1.1) * (max 0 (min 1 amt)),
   c1.2.1 + (c2.2.1 - c1.2.1) * (max 0 (min 1 amt)),
   c1.2.2 + (c2.2.2 - c1.2.2) * (max 0 (min 1 amt)))

/-- JavaScript array indexing: `l[i]` is defined only for `0 ≤ i < length`;
anything else is `undefined` and poisons the computation. -/
def listGet {α : Type} (l : List α) (i : ℤ) : Option α :=
  if h : 0 ≤ i ∧ i.toNat < l.length then some (l.get ⟨i.toNat, h.2⟩) else none

/-- The per-frame colour block of `draw()`: advance the cursor by the speed,
wrap it modulo the palette length, look up the two neighbouring palette
entries and blend them by the fractional part. `none` models the `TypeError`
thrown when an index misses the array. -/
def nextColor (palette : List Color) (cursor speed : ℝ) : Option (ℝ × Color) :=
  let c := cursor + speed
  let tc := jsMod c (palette.length : ℝ)
  let i1 : ℤ := ⌊tc⌋
  let i2 : ℤ := jsIntMod (i1 + 1) (palette.length : ℤ)
  (listGet palette i1).bind (fun c1 =>
    (listGet palette i2).map (fun c2 => (c, lerpColor c1 c2 (tc - (i1 : ℝ)))))

lemma jsMod_one (a : ℝ) (h : 0 ≤ a) : jsMod a 1 = Int.fract a := by
  unfold jsMod jsTrunc
  rw [div_one, if_pos h, one_mul]
  rfl

lemma lerpColor_self (cc : Color) (amt : ℝ) : lerpColor cc cc amt = cc := by
  unfold lerpColor
  simp

/-- A negative fractional cursor makes `floor` return `-1` and the palette
lookup fail (in JavaScript, `palette[-1]` is `undefined` and `lerpColor`
throws). -/
lemma nextColor_neg_half :
    nextColor [((0 : ℝ), (0 : ℝ), (0 : ℝ))] (-(1 / 2)) 0 = none := by
  unfold nextColor
  dsimp only
  have h1 : jsMod (-(1 / 2) + 0) ((([((0 : ℝ), (0 : ℝ), (0 : ℝ))] : List Color)).length : ℝ)
      = -(1 / 2) := by
    unfold jsMod jsTrunc
    norm_num
  rw [h1]
  have h2 : ⌊(-(1 / 2) : ℝ)⌋ = -1 := by norm_num
  rw [h2]
  have h3 : listGet [((0 : ℝ), (0 : ℝ), (0 : ℝ))] (-1) = none := by
    unfold listGet
    rw [dif_neg]
    norm_num
  rw [h3]
  rfl

/-- For a palette of length 1 and a nonnegative advanced cursor, the colour
computation succeeds and yields the single palette colour. -/
lemma nextColor_singleton (cc : Color) (cursor speed : ℝ)
    (h : 0 ≤ cursor + speed) :
    nextColor [cc] cursor speed = some (cursor + speed, cc) := by
  unfold nextColor
  dsimp only
  rw [show (([cc] : List Color).length : ℝ) = 1 by norm_num]
  rw [jsMod_one _ h, Int.floor_fract]
  have hmod2 : jsIntMod ((0 : ℤ) + 1) ((([cc] : List Color).length : ℤ)) = 0 := by
    norm_num [jsIntMod]
  rw [hmod2]
  have hget : listGet [cc] 0 = some cc := by
    unfold listGet
    rw [dif_pos ⟨le_refl 0, by norm_num⟩]
    rfl
  rw [hget]
  rw [Option.some_bind, Option.map_some', lerpColor_self]

/-- C8 counterexample: the claim quantifies over every cursor value, but a
negative fractional cursor makes `floor` return `-1` and the palette lookup
fails (in JavaScript, `palette[-1]` is `undefined` and `lerpColor` throws). -/
theorem spec_c8_single_palette_counterexample :
    nextColor [((0 : ℝ), (0 : ℝ), (0 : ℝ))] (-(1 / 2)) 0 = none :=
  nextColor_neg_half

/-- C8 (amended): for a palette of length 1 the colour computation never
fails and returns that single colour, for every cursor and speed whose sum
is nonnegative — which covers every reachable state, since the cursor starts
at 0 and the speed slider is nonnegative. -/
theorem spec_c8_single_palette_total (cc : Color) (cursor speed : ℝ)
    (h : 0 ≤ cursor + speed) :
    nextColor [cc] cursor speed = some (cursor + speed, cc) :=
  nextColor_singleton cc cursor speed h

/-- Witness for C8 (amended) at palette `[(1,2,3)]`, cursor 2, speed 3. -/
theorem spec_c8_single_palette_total_witness :
    (0 : ℝ) ≤ 2 + 3
    ∧ nextColor [((1 : ℝ), (2 : ℝ), (3 : ℝ))] 2 3
        = some (2 + 3, ((1 : ℝ), (2 : ℝ), (3 : ℝ))) :=
  ⟨by norm_num, spec_c8_single_palette_total _ 2 3 (by norm_num)⟩

/-! ## The full draw() call, colour block included -/

/-- A full `SinusoidalDrawer.draw()` call. After `update` and the
first-frame guard, the colour block runs before the kaleidoscope loop: the
cursor is incremented first (`colorInterpolation += colorInterpolationSpeed`),
then the palette lookups and `lerpColor` run on the advanced cursor — and
throw (`Except.error`) when an index misses the palette, in which case the
incremented cursor persists but nothing is emitted. On success the loop
emits the `2 * symmetry` segments from `pos` to `prevPos`. -/
def SinusoidalDrawer.draw (autoPaused : Bool) (palette : List Color)
    (symmetry : ℕ) (theta : ℝ) (s : DrawerState) :
    DrawerState × Except JsError (List (Vec × Vec)) :=
  let s1 := SinusoidalDrawer.update autoPaused s
  if s1.t ≤ s1.tIncrement then
    ({ s1 with prevPos := s1.pos }, Except.ok [])
  else
    let s2 := { s1 with colorInterpolation :=
        s1.colorInterpolation + s1.colorInterpolationSpeed }
    match nextColor palette s1.colorInterpolation s1.colorInterpolationSpeed with
    | none => (s2, Except.error ⟨"lerpColor: undefined palette entry"⟩)
    | some _ => (s2, Except.ok (emit symmetry theta s1.pos s1.prevPos))

/-- A paused drawer state past its first step whose colour cursor is a
negative fraction, as after constructing with `opts.colorInterpolation`
set to `-0.5` and colour speed 0. -/
def pausedNegSample : DrawerState :=
  { pos := (1, 2), prevPos := (3, 4), t := 5, tIncrement := 1,
    xWaves := [], yWaves := [],
    colorInterpolation := -(1 / 2), colorInterpolationSpeed := 0 }

/-- C10 counterexample: at a paused state past its first step whose advanced
colour cursor is `-1/2`, `draw()` throws inside the colour block (the floor
index is `-1`, the palette lookup misses) before the kaleidoscope loop is
reached and emits no segment, refuting the claim that every such call emits
the full `2 * symmetry` segments. -/
theorem spec_c10_paused_draw_counterexample :
    pausedNegSample.tIncrement < pausedNegSample.t
    ∧ (SinusoidalDrawer.draw true [((0 : ℝ), (0 : ℝ), (0 : ℝ))] 3 120
          pausedNegSample).2
        = Except.error ⟨"lerpColor: undefined palette entry"⟩ := by
  refine ⟨by norm_num [pausedNegSample], ?_⟩
  have hnot : ¬ (pausedNegSample.t ≤ pausedNegSample.tIncrement) := by
    norm_num [pausedNegSample]
  have hcol : nextColor [((0 : ℝ), (0 : ℝ), (0 : ℝ))]
      pausedNegSample.colorInterpolation pausedNegSample.colorInterpolationSpeed
      = none := nextColor_neg_half
  unfold SinusoidalDrawer.draw
  rw [update_paused]
  dsimp only
  rw [if_neg hnot, hcol]

/-- C10 (amended): while paused and past the first step (`t > tIncrement`),
any `draw()` call whose colour computation succeeds — as it does in every
reachable state, where the advanced cursor is nonnegative — leaves the
trajectory state (positions, time, waves) untouched, still advances the
colour cursor by the colour speed, and still emits the full `2 * symmetry`
segments between the unchanged positions; when the colour lookup fails
instead, the call throws and emits nothing (see the counterexample). -/
theorem spec_c10_paused_draw_still_emits (s : DrawerState)
    (palette : List Color) (n : ℕ) (theta : ℝ) (pr : ℝ × Color)
    (h : s.tIncrement < s.t)
    (hcol : nextColor palette s.colorInterpolation s.colorInterpolationSpeed
        = some pr) :
    (SinusoidalDrawer.draw true palette n theta s).1.pos = s.pos
    ∧ (SinusoidalDrawer.draw true palette n theta s).1.prevPos = s.prevPos
    ∧ (SinusoidalDrawer.draw true palette n theta s).1.t = s.t
    ∧ (SinusoidalDrawer.draw true palette n theta s).1.xWaves = s.xWaves
    ∧ (SinusoidalDrawer.draw true palette n theta s).1.yWaves = s.yWaves
    ∧ (SinusoidalDrawer.draw true palette n theta s).1.colorInterpolation
        = s.colorInterpolation + s.colorInterpolationSpeed
    ∧ (SinusoidalDrawer.draw true palette n theta s).2
        = Except.ok (emit n theta s.pos s.prevPos)
    ∧ (emit n theta s.pos s.prevPos).length = 2 * n := by
  have hnot : ¬ (s.t ≤ s.tIncrement) := not_le.mpr h
  have hdraw : SinusoidalDrawer.draw true palette n theta s
      = ({ s with colorInterpolation :=
            s.colorInterpolation + s.colorInterpolationSpeed },
         Except.ok (emit n theta s.pos s.prevPos)) := by
    unfold SinusoidalDrawer.draw
    rw [update_paused]
    dsimp only
    rw [if_neg hnot, hcol]
  rw [hdraw]
  refine ⟨rfl, rfl, rfl, rfl, rfl, rfl, rfl, ?_⟩
  unfold emit
  exact kloop_length theta s.pos s.prevPos n Mat2.id

/-- Witness for C10 (amended) at the sample paused state, a one-colour
palette, symmetry 3, step 120°. -/
theorem spec_c10_paused_draw_still_emits_witness :
    (pausedSample.tIncrement < pausedSample.t
      ∧ nextColor [((0 : ℝ), (0 : ℝ), (0 : ℝ))]
            pausedSample.colorInterpolation pausedSample.colorInterpolationSpeed
          = some (0 + 1 / 4, ((0 : ℝ), (0 : ℝ), (0 : ℝ))))
    ∧ ((SinusoidalDrawer.draw true [((0 : ℝ), (0 : ℝ), (0 : ℝ))] 3 120
          pausedSample).1.pos = pausedSample.pos
      ∧ (SinusoidalDrawer.draw true [((0 : ℝ), (0 : ℝ), (0 : ℝ))] 3 120
          pausedSample).1.prevPos = pausedSample.prevPos
      ∧ (SinusoidalDrawer.draw true [((0 : ℝ), (0 : ℝ), (0 : ℝ))] 3 120
          pausedSample).1.t = pausedSample.t
      ∧ (SinusoidalDrawer.draw true [((0 : ℝ), (0 : ℝ), (0 : ℝ))] 3 120
          pausedSample).1.xWaves = pausedSample.xWaves
      ∧ (SinusoidalDrawer.draw true [((0 : ℝ), (0 : ℝ), (0 : ℝ))] 3 120
          pausedSample).1.yWaves = pausedSample.yWaves
      ∧ (SinusoidalDrawer.draw true [((0 : ℝ), (0 : ℝ), (0 : ℝ))] 3 120
          pausedSample).1.colorInterpolation
          = pausedSample.colorInterpolation + pausedSample.colorInterpolationSpeed
      ∧ (SinusoidalDrawer.draw true [((0 : ℝ), (0 : ℝ), (0 : ℝ))] 3 120
          pausedSample).2
          = Except.ok (emit 3 120 pausedSample.pos pausedSample.prevPos)
      ∧ (emit 3 120 pausedSample.pos pausedSample.prevPos).length = 2 * 3) :=
  ⟨⟨by norm_num [pausedSample],
    nextColor_singleton ((0 : ℝ), (0 : ℝ), (0 : ℝ)) 0 (1 / 4) (by norm_num)⟩,
   spec_c10_paused_draw_still_emits pausedSample
     [((0 : ℝ), (0 : ℝ), (0 : ℝ))] 3 120
     (0 + 1 / 4, ((0 : ℝ), (0 : ℝ), (0 : ℝ)))
     (by norm_num [pausedSample])
     (nextColor_singleton ((0 : ℝ), (0 : ℝ), (0 : ℝ)) 0 (1 / 4) (by norm_num))⟩
